import Mathlib

/-!
Verification development for the slide change-tracking pipeline
(`server/routers/slides.py`, `server/core/detect_change.py`,
`server/core/cv_detect.py`, `server/core/clip_utils.py`,
`server/storage/manager.py`).

Numeric values are embedded exactly: machine floats become `ℚ` where the
source computes rational arithmetic, and `ℝ` where a square root occurs
(`np.linalg.norm`).  Strings are Lean `String`s; images are grids of pixels.
-/

/- ### Longest common subsequence

Both external string-similarity collaborators used by the source are
normalized longest-common-subsequence similarities:
`rapidfuzz.fuzz.token_sort_ratio` is the normalized InDel similarity
(`100·2·lcs/(len1+len2)`) of the token-sorted strings, and
`difflib.SequenceMatcher.ratio` is described by the spec as a
"longest-common-subsequence-based ratio". -/

def lcs : List Char → List Char → ℕ
  | [], _ => 0
  | _ :: _, [] => 0
  | a :: as, b :: bs =>
    if a = b then lcs as bs + 1
    else max (lcs (a :: as) bs) (lcs as (b :: bs))
termination_by x y => x.length + y.length

/-- LCS of a list with itself is its length. -/
theorem lcs_self (l : List Char) : lcs l l = l.length := by
  induction l with
  | nil => simp [lcs]
  | cons a as ih => simp [lcs, ih]

/-- `str.split()` of Python / `sorted_split` of rapidfuzz: split on whitespace
runs, dropping empty chunks. -/
def whitespaceTokens (s : String) : List String :=
  ((s.toList.splitOnP (fun c => c.isWhitespace)).filter (fun r => r ≠ [])).map
    String.mk

/-- Python's `sorted` on strings (insertion into a sorted list; for the total
lexicographic order on strings this produces the same list as any sort). -/
def insertSorted (t : String) : List String → List String
  | [] => [t]
  | u :: us => if t ≤ u then t :: u :: us else u :: insertSorted t us

/-- Python's `sorted` on a list of strings. -/
def sortStrings : List String → List String
  | [] => []
  | t :: ts => insertSorted t (sortStrings ts)

/-- `" ".join(tokens)` as a character list. -/
def joinSpaces : List String → List Char
  | [] => []
  | [t] => t.toList
  | t :: ts => t.toList ++ ' ' :: joinSpaces ts

/-- The token-sorted re-joined string built inside
`rapidfuzz.fuzz.token_sort_ratio`: whitespace tokens, sorted, joined by a
single space. -/
def sortedTokenJoin (s : String) : List Char :=
  joinSpaces (sortStrings (whitespaceTokens s))

/-- Modelled from the spec: `rapidfuzz.fuzz.token_sort_ratio`, the external
fuzzy-matching collaborator called at `slides.py:270` and `slides.py:400`
("Fuzzy token-sort similarity: an alternative word-order-insensitive string
similarity").  rapidfuzz computes the normalized InDel similarity of the two
token-sorted strings, which equals `100·2·lcs/(len1+len2)`, and returns `100`
when both strings are empty. -/
def tokenSortRatio (a b : String) : ℚ :=
  let x := sortedTokenJoin a
  let y := sortedTokenJoin b
  if x.length + y.length = 0 then 100
  else 100 * (2 * (lcs x y : ℚ)) / ((x.length : ℚ) + (y.length : ℚ))

theorem tokenSortRatio_self (s : String) : tokenSortRatio s s = 100 := by
  unfold tokenSortRatio
  by_cases h : (sortedTokenJoin s).length + (sortedTokenJoin s).length = 0
  · rw [if_pos h]
  · rw [if_neg h, lcs_self]
    have hq : (((sortedTokenJoin s).length : ℚ)) ≠ 0 := by
      exact_mod_cast (by omega : (sortedTokenJoin s).length ≠ 0)
    field_simp
    ring

/- ### Word tokenization (`detect_change._tokenize`)

`WORD_REGEX = re.compile(r"\b[\w'-]+\b", re.UNICODE)` applied to the
lower-cased text.  A maximal run of characters from the class `[\w'-]`
yields one match, trimmed so that it starts at the run's first word
character (`\w`) and ends at its last word character; runs without a word
character yield no match.  `\w` is modelled by alphanumeric-or-underscore. -/

def isWordChar (c : Char) : Bool := c.isAlphanum || c = '_'

def isTokenChar (c : Char) : Bool := isWordChar c || c = Char.ofNat 39 || c = '-'

/-- Trim a run of token characters to the span from its first to its last
word character (the regex `\b` boundaries). -/
def trimRun (r : List Char) : List Char :=
  ((((r.dropWhile (fun c => !isWordChar c)).reverse).dropWhile
      (fun c => !isWordChar c)).reverse)

/-- `_tokenize` of `detect_change.py` (`detect_change.py:12`), as the list of
matched tokens (the `Counter` is recovered by `List.count`). -/
def tokenize (s : String) : List String :=
  ((((s.toList.map Char.toLower).splitOnP
      (fun c => !isTokenChar c)).map trimRun).filter (fun r => r ≠ [])).map
    (fun r => String.mk r)

/-- The union `set(prev_tokens) | set(curr_tokens)` iterated over in
`token_delta_ratio` (`detect_change.py:30`). -/
def tokenUnion (previous current : String) : Finset String :=
  (tokenize previous).toFinset ∪ (tokenize current).toFinset

/-- The accumulated `total` of `token_delta_ratio` (`detect_change.py:37`):
the sum of `max(prev_count, curr_count)` over the token union. -/
def tokenTotal (previous current : String) : ℕ :=
  ∑ t in tokenUnion previous current,
    max ((tokenize previous).count t) ((tokenize current).count t)

/-- The accumulated `diff` of `token_delta_ratio` (`detect_change.py:38`):
the sum of `abs(prev_count - curr_count)` over the token union. -/
def tokenDiff (previous current : String) : ℕ :=
  ∑ t in tokenUnion previous current,
    (((tokenize previous).count t : ℤ) - ((tokenize current).count t : ℤ)).natAbs

/-- `token_delta_ratio` of `detect_change.py` (`detect_change.py:17`). -/
def tokenDeltaRatio (previous current : String) : ℚ :=
  if previous = "" ∧ current = "" then 0
  else if tokenTotal previous current = 0 then 0
  else (tokenDiff previous current : ℚ) / (tokenTotal previous current : ℚ)

/-- The symmetric word-frequency difference ratio exactly as the spec words
it: "for the union of tokens appearing in either text, sum
`|count_prev − count_curr|` and divide by sum of
`max(count_prev, count_curr)`". -/
def specWordFreqDelta (previous current : String) : ℚ :=
  (tokenDiff previous current : ℚ) / (tokenTotal previous current : ℚ)

/-- Modelled from the spec: `difflib.SequenceMatcher(None, a, b).ratio()`, the
external sequence-similarity collaborator called in
`detect_change.similarity_scores` (`detect_change.py:48`); the spec describes
it as the "longest-common-subsequence-based ratio between previous and
current OCR text, in [0,1], 1 = identical", i.e. `2·M/T`, which is `1` when
both strings are empty. -/
def seqRatio (a b : String) : ℚ :=
  if a.toList.length + b.toList.length = 0 then 1
  else 2 * (lcs a.toList b.toList : ℚ) / ((a.toList.length : ℚ) + (b.toList.length : ℚ))

theorem seqRatio_self (s : String) : seqRatio s s = 1 := by
  unfold seqRatio
  by_cases h : s.toList.length + s.toList.length = 0
  · rw [if_pos h]
  · rw [if_neg h, lcs_self]
    have hl : ((s.toList.length : ℚ)) ≠ 0 := by
      exact_mod_cast (by omega : s.toList.length ≠ 0)
    rw [← two_mul]
    exact div_self (by simp at h ⊢; omega)

/-- `similarity_scores` of `detect_change.py` (`detect_change.py:46`). -/
def similarityScores (previous current : String) : ℚ × ℚ :=
  (seqRatio previous current, tokenDeltaRatio previous current)

/-- `evaluate_change` of `detect_change.py` (`detect_change.py:53`);
`ratio_threshold` and `token_threshold` default to `0.85` and `0.2` at the
call sites. -/
def evaluateChange (previous current : String)
    (ratioThreshold tokenThreshold : ℚ) : Bool × ℚ × ℚ :=
  if previous = "" then (true, 0, 1)
  else
    let scores := similarityScores previous current
    (decide (scores.1 < ratioThreshold) || decide (scores.2 > tokenThreshold),
      scores.1, scores.2)

/-- `is_slide_changed` of `detect_change.py` (`detect_change.py:74`). -/
def isSlideChanged (previous current : String)
    (ratioThreshold tokenThreshold : ℚ) : Bool :=
  (evaluateChange previous current ratioThreshold tokenThreshold).1

/- ### CLIP cosine similarity (`clip_utils.py`)

Embedding vectors are rational-valued lists; `np.linalg.norm` introduces a
square root, so the similarity itself lives in `ℝ`. -/

def dotQ (v w : List ℚ) : ℚ := (List.zipWith (fun a b => a * b) v w).sum

def sumSq (v : List ℚ) : ℚ := (v.map (fun x => x * x)).sum

theorem dotQ_self (v : List ℚ) : dotQ v v = sumSq v := by
  induction v with
  | nil => rfl
  | cons a as ih => simp [dotQ, sumSq] at ih ⊢

theorem sumSq_nonneg (v : List ℚ) : 0 ≤ sumSq v := by
  induction v with
  | nil => simp [sumSq]
  | cons a as ih =>
    simp only [sumSq, List.map_cons, List.sum_cons] at ih ⊢
    nlinarith [sq_nonneg a]

/-- `np.linalg.norm` (the Euclidean norm). -/
noncomputable def normNp (v : List ℚ) : ℝ := Real.sqrt ((sumSq v : ℚ) : ℝ)

/-- `cosine_np` of `clip_utils.py` (`clip_utils.py:56`): the dot product over
the product of norms plus `1e-12`, clipped (`np.clip`) to `[-1, 1]`. -/
noncomputable def cosineNp (v w : List ℚ) : ℝ :=
  max (-1) (min 1 (((dotQ v w : ℚ) : ℝ) / (normNp v * normNp w + 1e-12)))

theorem normNp_mul_self (v : List ℚ) : normNp v * normNp v = ((sumSq v : ℚ) : ℝ) := by
  unfold normNp
  exact Real.mul_self_sqrt (by exact_mod_cast sumSq_nonneg v)

/-- Comparing an embedding with itself produces `S/(S + 1e-12)` where `S` is
the squared norm: always strictly less than `1`. -/
theorem cosineNp_self (v : List ℚ) :
    cosineNp v v = ((sumSq v : ℚ) : ℝ) / (((sumSq v : ℚ) : ℝ) + 1e-12) ∧
      cosineNp v v < 1 := by
  have hS : (0 : ℝ) ≤ ((sumSq v : ℚ) : ℝ) := by exact_mod_cast sumSq_nonneg v
  have hden : (0 : ℝ) < ((sumSq v : ℚ) : ℝ) + 1e-12 := by norm_num; linarith
  have hlt : ((sumSq v : ℚ) : ℝ) / (((sumSq v : ℚ) : ℝ) + 1e-12) < 1 := by
    rw [div_lt_one hden]; norm_num
  have hge : (0 : ℝ) ≤ ((sumSq v : ℚ) : ℝ) / (((sumSq v : ℚ) : ℝ) + 1e-12) :=
    div_nonneg hS hden.le
  have hval : cosineNp v v = ((sumSq v : ℚ) : ℝ) / (((sumSq v : ℚ) : ℝ) + 1e-12) := by
    unfold cosineNp
    rw [dotQ_self, normNp_mul_self]
    rw [min_eq_right hlt.le, max_eq_right (by linarith)]
  exact ⟨hval, hval ▸ hlt⟩

/-- `cosine_sim` of `clip_utils.py` (`clip_utils.py:50`): the plain dot
product of two already-normalized `[1, D]` tensors. -/
def cosineSim (v w : List ℚ) : ℚ := dotQ v w

/-- Hamming distance between two perceptual hashes
(`imagehash.ImageHash.__sub__`: count of differing bits). -/
def hammingDistance (a b : List Bool) : ℕ :=
  (List.zipWith (fun x y => decide (x ≠ y)) a b).count true

/- ### The embedding-based change decision (`slides.py`) -/

/-- `TEXT_THRESHOLD` of `slides.py:56` (env default "0.60"). -/
def TEXT_THRESHOLD : ℚ := 0.60

/-- `CLIP_THRESHOLD` of `slides.py:57` (env default "0.88"). -/
def CLIP_THRESHOLD : ℚ := 0.88

/-- `USE_BBOX_FOR_ANALYSIS` of `slides.py:58`: true exactly when the
`USE_BBOX` environment variable (default `"0"`) equals `"1"`. -/
def useBBoxForAnalysis (useBBoxEnv : String) : Bool := useBBoxEnv = "1"

/-- The default value the source supplies for the `USE_BBOX` environment
variable (`os.getenv("USE_BBOX", "0")`). -/
def useBBoxEnvDefault : String := "0"

/-- `_determine_change` of `slides.py` (`slides.py:261`), with the lazily
loaded module state `_previous_text` / `_previous_clip_vec` made explicit.
Returns `(is_new, text_similarity, clip_cosine)`. -/
noncomputable def determineChange (previousText : Option String)
    (previousClipVec : Option (List ℚ)) (currentText : String)
    (currentClip : List ℚ) : Bool × Option ℚ × Option ℝ :=
  match previousText, previousClipVec with
  | some pt, some pc =>
    let textSimilarity : ℚ := tokenSortRatio currentText pt / 100
    let clipCosine : ℝ := cosineNp currentClip pc
    (decide (textSimilarity < TEXT_THRESHOLD) &&
        decide (clipCosine < ((CLIP_THRESHOLD : ℚ) : ℝ)),
      some textSimilarity, some clipCosine)
  | _, _ => (true, none, none)

theorem determineChange_some_fst (pt : String) (pc : List ℚ) (ct : String)
    (cc : List ℚ) :
    (determineChange (some pt) (some pc) ct cc).1 = true ↔
      tokenSortRatio ct pt / 100 < TEXT_THRESHOLD ∧
        cosineNp cc pc < ((CLIP_THRESHOLD : ℚ) : ℝ) := by
  simp [determineChange]

theorem determineChange_some_fst_false (pt : String) (pc : List ℚ) (ct : String)
    (cc : List ℚ) :
    (determineChange (some pt) (some pc) ct cc).1 = false ↔
      TEXT_THRESHOLD ≤ tokenSortRatio ct pt / 100 ∨
        ((CLIP_THRESHOLD : ℚ) : ℝ) ≤ cosineNp cc pc := by
  rw [← Bool.not_eq_true, determineChange_some_fst]
  push_neg
  constructor
  · intro h
    by_cases ht : tokenSortRatio ct pt / 100 < TEXT_THRESHOLD
    · exact Or.inr (h ht)
    · exact Or.inl (le_of_not_lt ht)
  · intro h ht
    rcases h with h | h
    · exact absurd ht (not_lt.mpr h)
    · exact h

/-- The `compare_slides` decision core (`slides.py:400`–`slides.py:402`):
`(text_similarity, clip_cosine, new_slide)` for two processed samples. -/
noncomputable def compareSlidesMetrics (ocrText1 ocrText2 : String)
    (clip1 clip2 : List ℚ) : ℚ × ℝ × Bool :=
  let textSimilarity : ℚ := tokenSortRatio ocrText1 ocrText2 / 100
  let clipCosine : ℝ := cosineNp clip1 clip2
  (textSimilarity, clipCosine,
    decide (textSimilarity < TEXT_THRESHOLD) &&
      decide (clipCosine < ((CLIP_THRESHOLD : ℚ) : ℝ)))

theorem compareSlidesMetrics_newSlide (t1 t2 : String) (c1 c2 : List ℚ) :
    (compareSlidesMetrics t1 t2 c1 c2).2.2 = true ↔
      tokenSortRatio t1 t2 / 100 < TEXT_THRESHOLD ∧
        cosineNp c1 c2 < ((CLIP_THRESHOLD : ℚ) : ℝ) := by
  simp [compareSlidesMetrics]

/-- `SlideSimilarityResult` of `clip_utils.py` (`clip_utils.py:68`). -/
structure SlideSimilarityResult where
  isNew : Bool
  cosineSimilarity : ℚ
  phashDistance : Option ℕ

/-- `is_new_slide` of `clip_utils.py` (`clip_utils.py:75`);
`clip_thresh` and `phash_max_dist` default to `0.92` and `10`. -/
def isNewSlide (currentVec : List ℚ) (currentPhash : List Bool)
    (previousVec : Option (List ℚ)) (previousPhash : Option (List Bool))
    (clipThresh : ℚ) (phashMaxDist : ℕ) : SlideSimilarityResult :=
  match previousVec, previousPhash with
  | some pv, some pp =>
    let cosine := cosineSim currentVec pv
    let dist := hammingDistance pp currentPhash
    ⟨decide (cosine < clipThresh) || decide (dist > phashMaxDist), cosine, some dist⟩
  | _, _ => ⟨true, 0, none⟩

/- ### Quad ordering (`cv_detect.order_points`) -/

/-- `np.argmin`: index of the first occurrence of the minimum. -/
def argminIdx : List ℚ → ℕ
  | [] => 0
  | x :: xs =>
    match xs with
    | [] => 0
    | _ :: _ => if x ≤ xs.getD (argminIdx xs) 0 then 0 else argminIdx xs + 1

/-- `np.argmax`: index of the first occurrence of the maximum. -/
def argmaxIdx : List ℚ → ℕ
  | [] => 0
  | x :: xs =>
    match xs with
    | [] => 0
    | _ :: _ => if xs.getD (argmaxIdx xs) 0 ≤ x then 0 else argmaxIdx xs + 1


theorem argminIdx_cons_cons (x y : ℚ) (ys : List ℚ) :
    argminIdx (x :: y :: ys) =
      if x ≤ (y :: ys).getD (argminIdx (y :: ys)) 0 then 0
      else argminIdx (y :: ys) + 1 := rfl

theorem argmaxIdx_cons_cons (x y : ℚ) (ys : List ℚ) :
    argmaxIdx (x :: y :: ys) =
      if (y :: ys).getD (argmaxIdx (y :: ys)) 0 ≤ x then 0
      else argmaxIdx (y :: ys) + 1 := rfl

theorem argminIdx_lt_length (l : List ℚ) (h : l ≠ []) : argminIdx l < l.length := by
  induction l with
  | nil => exact absurd rfl h
  | cons x xs ih =>
    cases xs with
    | nil => simp [argminIdx]
    | cons y ys =>
      rw [argminIdx_cons_cons]
      by_cases hc : x ≤ (y :: ys).getD (argminIdx (y :: ys)) 0
      · rw [if_pos hc]; simp
      · rw [if_neg hc]
        have := ih (by simp)
        simp only [List.length_cons] at this ⊢
        omega

theorem argmaxIdx_lt_length (l : List ℚ) (h : l ≠ []) : argmaxIdx l < l.length := by
  induction l with
  | nil => exact absurd rfl h
  | cons x xs ih =>
    cases xs with
    | nil => simp [argmaxIdx]
    | cons y ys =>
      rw [argmaxIdx_cons_cons]
      by_cases hc : (y :: ys).getD (argmaxIdx (y :: ys)) 0 ≤ x
      · rw [if_pos hc]; simp
      · rw [if_neg hc]
        have := ih (by simp)
        simp only [List.length_cons] at this ⊢
        omega

theorem argminIdx_min (l : List ℚ) (j : ℕ) (hj : j < l.length) :
    l.getD (argminIdx l) 0 ≤ l.getD j 0 := by
  induction l generalizing j with
  | nil => simp at hj
  | cons x xs ih =>
    cases xs with
    | nil =>
      have hj0 : j = 0 := by simpa using hj
      subst hj0
      simp [argminIdx]
    | cons y ys =>
      rw [argminIdx_cons_cons]
      by_cases hc : x ≤ (y :: ys).getD (argminIdx (y :: ys)) 0
      · rw [if_pos hc]
        cases j with
        | zero => simp
        | succ j =>
          rw [List.getD_cons_zero, List.getD_cons_succ]
          refine le_trans hc (ih j ?_)
          simp only [List.length_cons] at hj ⊢
          omega
      · rw [if_neg hc, List.getD_cons_succ]
        cases j with
        | zero =>
          rw [List.getD_cons_zero]
          exact le_of_not_le hc
        | succ j =>
          rw [List.getD_cons_succ]
          refine ih j ?_
          simp only [List.length_cons] at hj ⊢
          omega

theorem argmaxIdx_max (l : List ℚ) (j : ℕ) (hj : j < l.length) :
    l.getD j 0 ≤ l.getD (argmaxIdx l) 0 := by
  induction l generalizing j with
  | nil => simp at hj
  | cons x xs ih =>
    cases xs with
    | nil =>
      have hj0 : j = 0 := by simpa using hj
      subst hj0
      simp [argmaxIdx]
    | cons y ys =>
      rw [argmaxIdx_cons_cons]
      by_cases hc : (y :: ys).getD (argmaxIdx (y :: ys)) 0 ≤ x
      · rw [if_pos hc]
        cases j with
        | zero => simp
        | succ j =>
          rw [List.getD_cons_zero, List.getD_cons_succ]
          refine le_trans (ih j ?_) hc
          simp only [List.length_cons] at hj ⊢
          omega
      · rw [if_neg hc, List.getD_cons_succ]
        cases j with
        | zero =>
          rw [List.getD_cons_zero]
          exact le_of_not_le hc
        | succ j =>
          rw [List.getD_cons_succ]
          refine ih j ?_
          simp only [List.length_cons] at hj ⊢
          omega

/-- `order_points` of `cv_detect.py` (`cv_detect.py:12`): output order is
`[top-left, top-right, bottom-right, bottom-left]` where `rect[0]` /
`rect[2]` are the argmin / argmax of the coordinate sums and `rect[1]` /
`rect[3]` are the argmin / argmax of `np.diff(pts, axis=1) = y - x`. -/
def orderPoints (pts : List (ℚ × ℚ)) : List (ℚ × ℚ) :=
  let s := pts.map (fun p => p.1 + p.2)
  let d := pts.map (fun p => p.2 - p.1)
  [pts.getD (argminIdx s) (0, 0),
   pts.getD (argminIdx d) (0, 0),
   pts.getD (argmaxIdx s) (0, 0),
   pts.getD (argmaxIdx d) (0, 0)]

/-- The ordering rule exactly as the claim states it: top-left = minimum
`x+y`, top-right = minimum `x−y`, bottom-right = maximum `x+y`,
bottom-left = maximum `x−y`. -/
def claimedOrderRule (pts res : List (ℚ × ℚ)) : Prop :=
  res.length = 4 ∧
  (∃ tl ∈ pts, res.getD 0 (0, 0) = tl ∧ ∀ p ∈ pts, tl.1 + tl.2 ≤ p.1 + p.2) ∧
  (∃ tr ∈ pts, res.getD 1 (0, 0) = tr ∧ ∀ p ∈ pts, tr.1 - tr.2 ≤ p.1 - p.2) ∧
  (∃ br ∈ pts, res.getD 2 (0, 0) = br ∧ ∀ p ∈ pts, p.1 + p.2 ≤ br.1 + br.2) ∧
  (∃ bl ∈ pts, res.getD 3 (0, 0) = bl ∧ ∀ p ∈ pts, p.1 - p.2 ≤ bl.1 - bl.2)

theorem getD_map_argmin (pts : List (ℚ × ℚ)) (f : (ℚ × ℚ) → ℚ) (h : pts ≠ []) :
    pts.getD (argminIdx (pts.map f)) (0, 0) ∈ pts ∧
      ∀ p ∈ pts, f (pts.getD (argminIdx (pts.map f)) (0, 0)) ≤ f p := by
  have hlen : argminIdx (pts.map f) < pts.length := by
    have := argminIdx_lt_length (pts.map f) (by simpa using h)
    simpa using this
  constructor
  · rw [List.getD_eq_getElem _ _ hlen]
    exact List.getElem_mem hlen
  · intro p hp
    obtain ⟨j, hj, hpj⟩ := List.mem_iff_getElem.mp hp
    have h1 : (pts.map f).getD (argminIdx (pts.map f)) 0 ≤ (pts.map f).getD j 0 :=
      argminIdx_min (pts.map f) j (by simpa using hj)
    rw [List.getD_eq_getElem _ _ (by simpa using hlen),
        List.getD_eq_getElem _ _ (by simpa using hj : j < (pts.map f).length)] at h1
    simp only [List.getElem_map] at h1
    rw [List.getD_eq_getElem _ _ hlen]
    exact hpj ▸ h1

theorem getD_map_argmax (pts : List (ℚ × ℚ)) (f : (ℚ × ℚ) → ℚ) (h : pts ≠ []) :
    pts.getD (argmaxIdx (pts.map f)) (0, 0) ∈ pts ∧
      ∀ p ∈ pts, f p ≤ f (pts.getD (argmaxIdx (pts.map f)) (0, 0)) := by
  have hlen : argmaxIdx (pts.map f) < pts.length := by
    have := argmaxIdx_lt_length (pts.map f) (by simpa using h)
    simpa using this
  constructor
  · rw [List.getD_eq_getElem _ _ hlen]
    exact List.getElem_mem hlen
  · intro p hp
    obtain ⟨j, hj, hpj⟩ := List.mem_iff_getElem.mp hp
    have h1 : (pts.map f).getD j 0 ≤ (pts.map f).getD (argmaxIdx (pts.map f)) 0 :=
      argmaxIdx_max (pts.map f) j (by simpa using hj)
    rw [List.getD_eq_getElem _ _ (by simpa using hj : j < (pts.map f).length),
        List.getD_eq_getElem _ _ (by simpa using hlen)] at h1
    simp only [List.getElem_map] at h1
    rw [List.getD_eq_getElem _ _ hlen]
    exact hpj ▸ h1

/- ### Region extraction (`cv_detect.py`) -/

/-- A frame: a grid of pixels (`height × width`, row major; a pixel is the
packed 8-bit BGR value). -/
abbrev Image := List (List ℕ)

/-- `frame.shape[0]` (height). -/
def imageHeight (img : Image) : ℕ := img.length

/-- `frame.shape[1]` (width, taken from the first row). -/
def imageWidth (img : Image) : ℕ := (img.headD []).length

/-- A frame has uniform rows of width `w` (the ndarray invariant). -/
def uniformWidth (img : Image) (w : ℕ) : Prop := ∀ row ∈ img, row.length = w

/-- Numpy slicing `frame[y1:y2, x1:x2]` (after the source has clamped the
bounds to be non-negative). -/
def cropImage (img : Image) (x1 y1 x2 y2 : ℤ) : Image :=
  ((img.drop y1.toNat).take (y2 - y1).toNat).map
    (fun row => (row.drop x1.toNat).take (x2 - x1).toNat)

/-- `cv2.boundingRect` of integer points: minimal axis-aligned integer
rectangle `(x, y, w, h)` with `w = max x − min x + 1`,
`h = max y − min y + 1`. -/
def boundingRect (corners : List (ℤ × ℤ)) : ℤ × ℤ × ℤ × ℤ :=
  match corners with
  | [] => (0, 0, 0, 0)
  | p :: ps =>
    let xmin := ps.foldl (fun m q => min m q.1) p.1
    let ymin := ps.foldl (fun m q => min m q.2) p.2
    let xmax := ps.foldl (fun m q => max m q.1) p.1
    let ymax := ps.foldl (fun m q => max m q.2) p.2
    (xmin, ymin, xmax - xmin + 1, ymax - ymin + 1)

/-- `EXTRA_PAD` of `cv_detect.py:9`. -/
def EXTRA_PAD : ℤ := 30

/-- The clamped crop coordinates computed by `extract_bbox_with_padding`
(`cv_detect.py:101`): `x1 = max(x − pad, 0)`, `y1 = max(y − pad, 0)`,
`x2 = min(x + w + pad, frame.shape[1])`, `y2 = min(y + h + pad, frame.shape[0])`. -/
def paddedCoords (frameW frameH : ℤ) (corners : List (ℤ × ℤ)) (pad : ℤ) :
    ℤ × ℤ × ℤ × ℤ :=
  let r := boundingRect corners
  let x := r.1
  let y := r.2.1
  let w := r.2.2.1
  let h := r.2.2.2
  (max (x - pad) 0, max (y - pad) 0, min (x + w + pad) frameW, min (y + h + pad) frameH)

/-- `extract_bbox_with_padding` of `cv_detect.py` (`cv_detect.py:101`):
compute the padded clamped coordinates, then slice the frame. -/
def extractBBoxWithPadding (frame : Image) (corners : List (ℤ × ℤ)) (pad : ℤ) :
    Image :=
  let c := paddedCoords (imageWidth frame : ℤ) (imageHeight frame : ℤ) corners pad
  cropImage frame c.1 c.2.1 c.2.2.1 c.2.2.2

/-- `detect_and_crop_slide` of `cv_detect.py` (`cv_detect.py:111`).  The
contour search of `find_screen` runs on `cv2` edge maps, an external CV
collaborator; its outcome (the detected corner list, or `None`) is therefore
a parameter. -/
def detectAndCropSlide (frame : Image) (foundCorners : Option (List (ℤ × ℤ))) :
    Image × Bool × Option (List (ℤ × ℤ)) :=
  match foundCorners with
  | none => (frame, false, none)
  | some corners => (extractBBoxWithPadding frame corners EXTRA_PAD, true, some corners)

/-- The analysis region chosen by `_process_frame` (`slides.py:237`):
`analysis_region = cropped if detected and USE_BBOX_FOR_ANALYSIS else frame`.
OCR and the CLIP embedding are then computed on this image. -/
def processFrameRegion (useBBox : Bool) (frame : Image)
    (foundCorners : Option (List (ℤ × ℤ))) : Image :=
  let r := detectAndCropSlide frame foundCorners
  if r.2.1 && useBBox then r.1 else frame

/-- `_process_frame`'s feature extraction (`slides.py:241`–`slides.py:244`):
both extractors (external collaborators, passed as functions) are applied to
the chosen analysis region. -/
def processFrameFeatures (embedImage : Image → List ℚ)
    (extractText : Image → String) (useBBox : Bool) (frame : Image)
    (foundCorners : Option (List (ℤ × ℤ))) : List ℚ × String :=
  let region := processFrameRegion useBBox frame foundCorners
  (embedImage region, extractText region)

/- ### Storage and orchestration (`storage/manager.py`, `slides.py`) -/

/-- The parsed JSON document returned by the summarizer collaborator
(`gemini.summarize_slide`); opaque to the pipeline. -/
structure SummaryDoc where
  payload : String
deriving DecidableEq

/-- `GeminiError` of `gemini.py:86`. -/
structure GeminiError where
  msg : String
deriving DecidableEq

/-- A FastAPI `HTTPException`: status code and detail. -/
structure HttpError where
  status : ℕ
  detail : String
deriving DecidableEq

/-- One entry of the history log (`_append_slide_history_entry`,
`slides.py:184`): slide number, timestamp, summary and the two metrics. -/
structure HistoryEntry where
  slideNumber : ℕ
  timestamp : ℕ
  summary : SummaryDoc
  textSimilarity : Option ℚ
  clipCosine : Option ℝ

/-- The persisted single-slot `SlideState` of `storage/manager.py:19`. -/
structure SavedState where
  summary : Option SummaryDoc
  text : Option String
  clipVector : Option (List ℚ)
  image : Option Image

/-- The process-wide state of the slides router: the lazily loaded module
globals `_previous_text` / `_previous_clip_vec` (modelled after
initialization), the persisted `SlideState`, and the history log. -/
structure ServerState where
  prevText : Option String
  prevClip : Option (List ℚ)
  saved : SavedState
  history : List HistoryEntry

/-- `append_slide_history` of `storage/manager.py` (`manager.py:105`): load
the stored history and append the entry. -/
def appendSlideHistory (history : List HistoryEntry) (entry : HistoryEntry) :
    List HistoryEntry :=
  history ++ [entry]

/-- `_append_slide_history_entry` of `slides.py` (`slides.py:184`): the new
slide number is `history[-1]["slide_number"] + 1` if the log is non-empty and
`1` otherwise; returns the updated log and the created entry. -/
def appendSlideHistoryEntry (history : List HistoryEntry) (summary : SummaryDoc)
    (now : ℕ) (textSimilarity : Option ℚ) (clipCosine : Option ℝ) :
    List HistoryEntry × HistoryEntry :=
  let slideNumber :=
    match history.getLast? with
    | some e => e.slideNumber + 1
    | none => 1
  let entry : HistoryEntry := ⟨slideNumber, now, summary, textSimilarity, clipCosine⟩
  (appendSlideHistory history entry, entry)

/-- A sequence of history appends starting from a given log. -/
def appendRun (history : List HistoryEntry)
    (items : List (SummaryDoc × ℕ × Option ℚ × Option ℝ)) : List HistoryEntry :=
  items.foldl
    (fun acc it => (appendSlideHistoryEntry acc it.1 it.2.1 it.2.2.1 it.2.2.2).1)
    history

/-- The response body of `/process_slide` (`ProcessSlideResponse`): the
`clip_cosine` field falls back to `0.0` when no comparison happened. -/
structure ProcessResponse where
  newSlide : Bool
  clipCosine : ℝ
  textSimilarity : Option ℚ
  summary : Option SummaryDoc
  slideNumber : ℕ

/-- The features `_process_frame` produced for the incoming frame. -/
structure SlideSample where
  analysisImage : Image
  clipVector : List ℚ
  ocrText : String

/-- `process_slide` of `slides.py` (`slides.py:291`), after the frame has
been decoded and featurized into `sample`.  The external summarizer call is
a parameter (`summarizer`: its successful parsed JSON, `none` when the model
returned JSON `null`, or the raised `GeminiError`); `now` is the clock.
Returns the HTTP outcome together with the resulting server state (a raised
`HTTPException` leaves every piece of state untouched). -/
noncomputable def processSlide (st : ServerState) (sample : SlideSample)
    (summarizer : Except GeminiError (Option SummaryDoc)) (now : ℕ) :
    (Except HttpError ProcessResponse) × ServerState :=
  let change := determineChange st.prevText st.prevClip sample.ocrText sample.clipVector
  let isNew := change.1
  let textSimilarity := change.2.1
  let clipCosine := change.2.2
  if isNew then
    match summarizer with
    | .error exc =>
      (.error ⟨502, "Gemini summarization failed: " ++ exc.msg⟩, st)
    | .ok summaryPayload =>
      let savedSummary :=
        match summaryPayload with
        | some s => some s
        | none => st.saved.summary
      let st1 : ServerState :=
        { st with
          saved := ⟨savedSummary, some sample.ocrText, some sample.clipVector,
            some sample.analysisImage⟩,
          prevText := some sample.ocrText,
          prevClip := some sample.clipVector }
      match summaryPayload with
      | some s =>
        let app := appendSlideHistoryEntry st1.history s now textSimilarity clipCosine
        let st2 := { st1 with history := app.1 }
        (.ok ⟨isNew, clipCosine.getD 0, textSimilarity, some s, app.2.slideNumber⟩, st2)
      | none =>
        let slideNumber :=
          match st1.history.getLast? with
          | some e => e.slideNumber + 1
          | none => 1
        (.ok ⟨isNew, clipCosine.getD 0, textSimilarity, none, slideNumber⟩, st1)
  else
    let summaryPayload := st.saved.summary
    let savedSummary :=
      match summaryPayload with
      | some s => some s
      | none => st.saved.summary
    let st1 : ServerState :=
      { st with
        saved := ⟨savedSummary, some sample.ocrText, some sample.clipVector,
          some sample.analysisImage⟩,
        prevText := some sample.ocrText,
        prevClip := some sample.clipVector }
    let slideNumber :=
      match st.history.getLast? with
      | some e => e.slideNumber
      | none => 1
    (.ok ⟨isNew, clipCosine.getD 0, textSimilarity, summaryPayload, slideNumber⟩, st1)

/- ### Supporting lemmas for the token-delta metric -/

theorem tokenDiff_le_tokenTotal (p c : String) : tokenDiff p c ≤ tokenTotal p c := by
  unfold tokenDiff tokenTotal
  exact Finset.sum_le_sum (fun t _ => by omega)

theorem tokenTotal_eq_zero_iff (p c : String) :
    tokenTotal p c = 0 ↔ tokenize p = [] ∧ tokenize c = [] := by
  constructor
  · intro h
    constructor
    · by_contra hne
      obtain ⟨t, ht⟩ := List.exists_mem_of_ne_nil _ hne
      have htu : t ∈ tokenUnion p c := by
        simp only [tokenUnion, Finset.mem_union, List.mem_toFinset]
        exact Or.inl ht
      have h0 := (Finset.sum_eq_zero_iff.mp h) t htu
      have h1 : 0 < (tokenize p).count t := List.count_pos_iff_mem.mpr ht
      omega
    · by_contra hne
      obtain ⟨t, ht⟩ := List.exists_mem_of_ne_nil _ hne
      have htu : t ∈ tokenUnion p c := by
        simp only [tokenUnion, Finset.mem_union, List.mem_toFinset]
        exact Or.inr ht
      have h0 := (Finset.sum_eq_zero_iff.mp h) t htu
      have h1 : 0 < (tokenize c).count t := List.count_pos_iff_mem.mpr ht
      omega
  · intro h
    simp [tokenTotal, tokenUnion, h.1, h.2]

theorem tokenDiff_self (s : String) : tokenDiff s s = 0 := by
  unfold tokenDiff
  exact Finset.sum_eq_zero (fun t _ => by simp)

theorem tokenDeltaRatio_self (s : String) : tokenDeltaRatio s s = 0 := by
  unfold tokenDeltaRatio
  split
  · rfl
  · split
    · rfl
    · rw [tokenDiff_self]
      simp

theorem tokenDiff_eq_zero_iff (p c : String) :
    tokenDiff p c = 0 ↔
      ((tokenize p : Multiset String) = (tokenize c : Multiset String)) := by
  unfold tokenDiff
  rw [Finset.sum_eq_zero_iff]
  constructor
  · intro h
    ext t
    rw [Multiset.coe_count, Multiset.coe_count]
    by_cases htu : t ∈ tokenUnion p c
    · have := h t htu
      omega
    · simp only [tokenUnion, Finset.mem_union, List.mem_toFinset, not_or] at htu
      rw [List.count_eq_zero_of_not_mem htu.1, List.count_eq_zero_of_not_mem htu.2]
  · intro h t _
    have : (tokenize p).count t = (tokenize c).count t := by
      have := congrArg (Multiset.count t) h
      simpa using this
    omega

/- ### Claim theorems -/

/-- Claim C2: whenever the previous state is null (no cached previous text or
embedding in `_determine_change`, empty previous text in `evaluate_change`,
or no previous vector/hash in `is_new_slide`), the decision is
`changed = true` with zero-confidence metrics and no similarity computed
against a prior slide. -/
theorem first_observation_changed
    (pt : Option String) (pc : Option (List ℚ)) (ct : String) (cc : List ℚ)
    (cv : List ℚ) (cph : List Bool) (pv : Option (List ℚ))
    (pp : Option (List Bool)) (rt tt clipThresh : ℚ) (pmd : ℕ)
    (h1 : pt = none ∨ pc = none) (h2 : pv = none ∨ pp = none) :
    determineChange pt pc ct cc = (true, none, none) ∧
    evaluateChange "" ct rt tt = (true, 0, 1) ∧
    isNewSlide cv cph pv pp clipThresh pmd = ⟨true, 0, none⟩ := by
  refine ⟨?_, by simp [evaluateChange], ?_⟩
  · rcases h1 with h | h
    · subst h; cases pc <;> rfl
    · subst h; cases pt <;> rfl
  · rcases h2 with h | h
    · subst h; cases pp <;> rfl
    · subst h; cases pv <;> rfl

/-- Witness for C2 at a concrete null previous state. -/
theorem first_observation_changed_witness :
    determineChange none none "slide text" [1, 0] = (true, none, none) ∧
    evaluateChange "" "slide text" 0.85 0.2 = (true, 0, 1) ∧
    isNewSlide [1, 0] [true, false] none none 0.92 10 = ⟨true, 0, none⟩ :=
  first_observation_changed none none "slide text" [1, 0] [1, 0] [true, false]
    none none 0.85 0.2 0.92 10 (Or.inl rfl) (Or.inl rfl)

/-- Claim C7: `_append_slide_history_entry` assigns sequence number
(last entry's number + 1), or `1` on an empty log, and only ever appends;
consequently a log built by appends from the empty log carries exactly the
sequence numbers `1, 2, …, n`. -/
theorem history_sequence_invariant :
    (∀ (h : List HistoryEntry) (s : SummaryDoc) (now : ℕ) (ts : Option ℚ)
        (cc : Option ℝ),
      (appendSlideHistoryEntry h s now ts cc).2.slideNumber =
        (match h.getLast? with
         | some e => e.slideNumber + 1
         | none => 1) ∧
      (appendSlideHistoryEntry h s now ts cc).1 =
        h ++ [(appendSlideHistoryEntry h s now ts cc).2]) ∧
    (∀ items : List (SummaryDoc × ℕ × Option ℚ × Option ℝ),
      (appendRun [] items).map HistoryEntry.slideNumber =
        List.range' 1 items.length) := by
  have key : ∀ (items : List (SummaryDoc × ℕ × Option ℚ × Option ℝ))
      (h : List HistoryEntry) (n : ℕ),
      h.map HistoryEntry.slideNumber = List.range' 1 n →
      (appendRun h items).map HistoryEntry.slideNumber =
        List.range' 1 (n + items.length) := by
    intro items
    induction items with
    | nil => intro h n hinv; simpa using hinv
    | cons it its ih =>
      intro h n hinv
      have hlast : (h.map HistoryEntry.slideNumber).getLast? =
          h.getLast?.map HistoryEntry.slideNumber := List.getLast?_map _ _
      have hstep : ((appendSlideHistoryEntry h it.1 it.2.1 it.2.2.1 it.2.2.2).1).map
          HistoryEntry.slideNumber = List.range' 1 (n + 1) := by
        cases hn : h.getLast? with
        | none =>
          have hnil : h = [] := List.getLast?_eq_none_iff.mp hn
          subst hnil
          simp only [List.map_nil] at hinv
          have hn0 : n = 0 := by
            by_contra hne
            rw [show n = (n - 1) + 1 from by omega, List.range'_concat] at hinv
            simp at hinv
          subst hn0
          simp [appendSlideHistoryEntry, appendSlideHistory, List.range']
        | some e =>
          have hne : n ≠ 0 := by
            intro hn0
            subst hn0
            simp only [List.range'_zero, List.map_eq_nil_iff] at hinv
            subst hinv
            simp at hn
          have hlastval : e.slideNumber = n := by
            have h1 : (h.map HistoryEntry.slideNumber).getLast? = some n := by
              rw [hinv, show n = (n - 1) + 1 from by omega, List.range'_concat]
              simp
              omega
            rw [hlast, hn] at h1
            simpa using h1
          have hform : (appendSlideHistoryEntry h it.1 it.2.1 it.2.2.1 it.2.2.2).1 =
              h ++ [⟨e.slideNumber + 1, it.2.1, it.1, it.2.2.1, it.2.2.2⟩] := by
            simp [appendSlideHistoryEntry, appendSlideHistory, hn]
          rw [hform, List.map_append, hinv, hlastval, List.range'_concat]
          simp [Nat.add_comm]
      have := ih _ (n + 1) hstep
      simp only [appendRun, List.foldl_cons] at this ⊢
      rw [this]
      congr 1
      simp
      omega
  refine ⟨?_, fun items => by simpa using key items [] 0 (by simp)⟩
  intro h s now ts cc
  constructor
  · rfl
  · rfl

/-- Claim C8: for a frame of positive size, a quad whose integer bounding
rectangle lies inside the frame with positive width and height, and any
`pad ≥ 0`, the clamped crop coordinates of `extract_bbox_with_padding`
satisfy `0 ≤ x1 < x2 ≤ W` and `0 ≤ y1 < y2 ≤ H`, and the returned crop is a
non-empty image (the function is total, so it never raises). -/
theorem crop_clamping_safety
    (frame : Image) (corners : List (ℤ × ℤ)) (pad : ℤ) (W H x y w h : ℤ)
    (hW : W = (imageWidth frame : ℤ)) (hH : H = (imageHeight frame : ℤ))
    (hr : boundingRect corners = (x, y, w, h)) (hpad : 0 ≤ pad)
    (hx : 0 ≤ x) (hy : 0 ≤ y) (hw : 1 ≤ w) (hh : 1 ≤ h)
    (hxw : x + w ≤ W) (hyh : y + h ≤ H)
    (huni : uniformWidth frame W.toNat) :
    ∃ x1 y1 x2 y2 : ℤ,
      paddedCoords W H corners pad = (x1, y1, x2, y2) ∧
      0 ≤ x1 ∧ x1 < x2 ∧ x2 ≤ W ∧ 0 ≤ y1 ∧ y1 < y2 ∧ y2 ≤ H ∧
      (extractBBoxWithPadding frame corners pad).length = (y2 - y1).toNat ∧
      0 < (extractBBoxWithPadding frame corners pad).length ∧
      ∀ row ∈ extractBBoxWithPadding frame corners pad,
        row.length = (x2 - x1).toNat ∧ 0 < row.length := by
  have hcoord : paddedCoords W H corners pad =
      (max (x - pad) 0, max (y - pad) 0, min (x + w + pad) W, min (y + h + pad) H) := by
    simp [paddedCoords, hr]
  have hext : extractBBoxWithPadding frame corners pad =
      cropImage frame (max (x - pad) 0) (max (y - pad) 0)
        (min (x + w + pad) W) (min (y + h + pad) H) := by
    unfold extractBBoxWithPadding
    rw [← hW, ← hH, hcoord]
  have hflen : frame.length = H.toNat := by
    rw [hH]
    simp [imageHeight]
  have hi1 : (0 : ℤ) ≤ max (x - pad) 0 := le_max_right _ _
  have hi2 : max (x - pad) 0 < min (x + w + pad) W := by omega
  have hi3 : min (x + w + pad) W ≤ W := min_le_right _ _
  have hi4 : (0 : ℤ) ≤ max (y - pad) 0 := le_max_right _ _
  have hi5 : max (y - pad) 0 < min (y + h + pad) H := by omega
  have hi6 : min (y + h + pad) H ≤ H := min_le_right _ _
  have hlen : (extractBBoxWithPadding frame corners pad).length =
      (min (y + h + pad) H - max (y - pad) 0).toNat := by
    rw [hext]
    simp only [cropImage, List.length_map, List.length_take, List.length_drop, hflen]
    omega
  refine ⟨max (x - pad) 0, max (y - pad) 0, min (x + w + pad) W, min (y + h + pad) H,
    hcoord, hi1, hi2, hi3, hi4, hi5, hi6, hlen, by rw [hlen]; omega, ?_⟩
  intro row hrow
  rw [hext] at hrow
  simp only [cropImage, List.mem_map] at hrow
  obtain ⟨orig, horig, hroweq⟩ := hrow
  have horigf : orig ∈ frame := List.drop_subset _ _ (List.take_subset _ _ horig)
  have hor : orig.length = W.toNat := huni orig horigf
  rw [← hroweq]
  simp only [List.length_take, List.length_drop, hor]
  omega

/-- Witness for C8 on a concrete 30×20 frame, quad and pad. -/
theorem crop_clamping_safety_witness :
    ∃ x1 y1 x2 y2 : ℤ,
      paddedCoords 30 20 [(3, 4), (12, 4), (12, 9), (3, 9)] 5 = (x1, y1, x2, y2) ∧
      0 ≤ x1 ∧ x1 < x2 ∧ x2 ≤ 30 ∧ 0 ≤ y1 ∧ y1 < y2 ∧ y2 ≤ 20 ∧
      (extractBBoxWithPadding (List.replicate 20 (List.replicate 30 0))
          [(3, 4), (12, 4), (12, 9), (3, 9)] 5).length = (y2 - y1).toNat ∧
      0 < (extractBBoxWithPadding (List.replicate 20 (List.replicate 30 0))
          [(3, 4), (12, 4), (12, 9), (3, 9)] 5).length ∧
      ∀ row ∈ extractBBoxWithPadding (List.replicate 20 (List.replicate 30 0))
          [(3, 4), (12, 4), (12, 9), (3, 9)] 5,
        row.length = (x2 - x1).toNat ∧ 0 < row.length :=
  crop_clamping_safety (List.replicate 20 (List.replicate 30 0))
    [(3, 4), (12, 4), (12, 9), (3, 9)] 5 30 20 3 4 10 6
    (by decide) (by decide) (by decide) (by decide) (by decide) (by decide)
    (by decide) (by decide) (by decide) (by decide)
    (by intro row hrow; simp [List.eq_of_mem_replicate hrow])

/-- Claim C5 counterexample: on the axis-aligned square
`[(0,0), (10,0), (10,10), (0,10)]` the claimed rule (top-right = minimum
`x−y`, bottom-left = maximum `x−y`) does not describe `order_points`: the
code places `(10,0)` top-right, while the minimum of `x−y` is attained at
`(0,10)`. -/
theorem order_points_counterexample :
    ¬ claimedOrderRule [(0, 0), (10, 0), (10, 10), (0, 10)]
        (orderPoints [(0, 0), (10, 0), (10, 10), (0, 10)]) := by
  have hval : orderPoints [(0, 0), (10, 0), (10, 10), (0, 10)] =
      [(0, 0), (10, 0), (10, 10), (0, 10)] := by
    norm_num [orderPoints, argminIdx, argmaxIdx]
  intro hcl
  obtain ⟨-, -, ⟨tr, htr, hres, hall⟩, -, -⟩ := hcl
  rw [hval] at hres
  simp only [List.getD_cons_succ, List.getD_cons_zero] at hres
  have h1 := hall (0, 10) (by simp)
  rw [← hres] at h1
  norm_num at h1

/-- Claim C5 amended: `order_points` returns `[top-left, top-right, bottom-right,
bottom-left]` with top-left the unique minimizer of `x+y`, bottom-right the
unique maximizer of `x+y`, top-right the unique minimizer of `y−x`
(equivalently the maximizer of `x−y`), and bottom-left the unique maximizer
of `y−x` (the minimizer of `x−y`); when these extrema are uniquely attained
the result is independent of the order the points are supplied in, since
the characterization below is permutation-invariant. -/
theorem order_points_amended (pts : List (ℚ × ℚ)) (tl tr br bl : ℚ × ℚ)
    (hlen : pts.length = 4)
    (htl : tl ∈ pts ∧ ∀ p ∈ pts, p ≠ tl → tl.1 + tl.2 < p.1 + p.2)
    (htr : tr ∈ pts ∧ ∀ p ∈ pts, p ≠ tr → tr.2 - tr.1 < p.2 - p.1)
    (hbr : br ∈ pts ∧ ∀ p ∈ pts, p ≠ br → p.1 + p.2 < br.1 + br.2)
    (hbl : bl ∈ pts ∧ ∀ p ∈ pts, p ≠ bl → p.2 - p.1 < bl.2 - bl.1) :
    orderPoints pts = [tl, tr, br, bl] := by
  have hne : pts ≠ [] := by intro h; rw [h] at hlen; simp at hlen
  have h0 := getD_map_argmin pts (fun p => p.1 + p.2) hne
  have h1 := getD_map_argmin pts (fun p => p.2 - p.1) hne
  have h2 := getD_map_argmax pts (fun p => p.1 + p.2) hne
  have h3 := getD_map_argmax pts (fun p => p.2 - p.1) hne
  have e0 : pts.getD (argminIdx (pts.map (fun p => p.1 + p.2))) (0, 0) = tl := by
    by_contra hc
    exact absurd (h0.2 tl htl.1) (not_le.mpr (htl.2 _ h0.1 hc))
  have e1 : pts.getD (argminIdx (pts.map (fun p => p.2 - p.1))) (0, 0) = tr := by
    by_contra hc
    exact absurd (h1.2 tr htr.1) (not_le.mpr (htr.2 _ h1.1 hc))
  have e2 : pts.getD (argmaxIdx (pts.map (fun p => p.1 + p.2))) (0, 0) = br := by
    by_contra hc
    exact absurd (h2.2 br hbr.1) (not_le.mpr (hbr.2 _ h2.1 hc))
  have e3 : pts.getD (argmaxIdx (pts.map (fun p => p.2 - p.1))) (0, 0) = bl := by
    by_contra hc
    exact absurd (h3.2 bl hbl.1) (not_le.mpr (hbl.2 _ h3.1 hc))
  simp only [orderPoints]
  rw [e0, e1, e2, e3]

/-- Witness for the amended C5 on a quadrilateral whose four extrema are
uniquely attained, supplied in canonical order. -/
theorem order_points_amended_witness :
    orderPoints [(0, 0), (10, 1), (11, 12), (1, 9)] =
      [(0, 0), (10, 1), (11, 12), (1, 9)] :=
  order_points_amended [(0, 0), (10, 1), (11, 12), (1, 9)]
    (0, 0) (10, 1) (11, 12) (1, 9) (by norm_num)
    (⟨by norm_num, by
      intro p hp hne
      simp only [List.mem_cons, List.not_mem_nil, or_false] at hp
      rcases hp with rfl | rfl | rfl | rfl <;> revert hne <;> norm_num⟩)
    (⟨by norm_num, by
      intro p hp hne
      simp only [List.mem_cons, List.not_mem_nil, or_false] at hp
      rcases hp with rfl | rfl | rfl | rfl <;> revert hne <;> norm_num⟩)
    (⟨by norm_num, by
      intro p hp hne
      simp only [List.mem_cons, List.not_mem_nil, or_false] at hp
      rcases hp with rfl | rfl | rfl | rfl <;> revert hne <;> norm_num⟩)
    (⟨by norm_num, by
      intro p hp hne
      simp only [List.mem_cons, List.not_mem_nil, or_false] at hp
      rcases hp with rfl | rfl | rfl | rfl <;> revert hne <;> norm_num⟩)

/-- Claim C4 counterexample: under the source's default configuration
(`USE_BBOX` env unset, hence `"0"`), a frame in which a quad IS detected
still has its analysis region equal to the full frame, not the Region
Extractor's crop (which here differs from the frame). -/
theorem region_featurization_counterexample :
    (detectAndCropSlide (List.replicate 70 [0])
        (some [(0, 0), (0, 5), (0, 5), (0, 0)])).2.1 = true ∧
    processFrameRegion (useBBoxForAnalysis useBBoxEnvDefault)
        (List.replicate 70 [0]) (some [(0, 0), (0, 5), (0, 5), (0, 0)]) =
      List.replicate 70 [0] ∧
    (detectAndCropSlide (List.replicate 70 [0])
        (some [(0, 0), (0, 5), (0, 5), (0, 0)])).1 ≠ List.replicate 70 [0] :=
  ⟨by decide, rfl, by decide⟩

/-- Claim C4 amended: the Feature Extractors run on the Region Extractor's output
only when a quad is detected AND `USE_BBOX_FOR_ANALYSIS` is enabled
(`USE_BBOX=1`); with no quad, or with the flag disabled (which is the
default, `USE_BBOX=0`), they run on the full frame. -/
theorem region_featurization_amended (embed : Image → List ℚ)
    (ocr : Image → String) (useBBox : Bool) (frame : Image)
    (found : Option (List (ℤ × ℤ))) :
    (found = none →
      processFrameFeatures embed ocr useBBox frame found = (embed frame, ocr frame)) ∧
    (useBBox = false →
      processFrameFeatures embed ocr useBBox frame found = (embed frame, ocr frame)) ∧
    (∀ corners, found = some corners → useBBox = true →
      processFrameFeatures embed ocr useBBox frame found =
        (embed (extractBBoxWithPadding frame corners EXTRA_PAD),
         ocr (extractBBoxWithPadding frame corners EXTRA_PAD))) ∧
    useBBoxForAnalysis useBBoxEnvDefault = false ∧
    useBBoxForAnalysis "1" = true := by
  refine ⟨?_, ?_, ?_, rfl, rfl⟩
  · intro h
    subst h
    rfl
  · intro h
    subst h
    cases found <;> rfl
  · intro corners h hb
    subst h
    subst hb
    rfl

/-- Witness for the amended C4: no quad detected, default flag. -/
theorem region_featurization_amended_witness :
    processFrameFeatures (fun img => [(img.length : ℚ)]) (fun _ => "t")
        (useBBoxForAnalysis useBBoxEnvDefault) [[1, 2], [3, 4]] none =
      ([(2 : ℚ)], "t") ∧
    useBBoxForAnalysis useBBoxEnvDefault = false :=
  ⟨(region_featurization_amended (fun img => [(img.length : ℚ)]) (fun _ => "t")
      (useBBoxForAnalysis useBBoxEnvDefault) [[1, 2], [3, 4]] none).1 rfl,
   (region_featurization_amended (fun img => [(img.length : ℚ)]) (fun _ => "t")
      (useBBoxForAnalysis useBBoxEnvDefault) [[1, 2], [3, 4]] none).2.2.2.1⟩

/-- A cosine between vectors with vanishing dot product is exactly 0. -/
theorem cosineNp_zero_dot (v w : List ℚ) (h : dotQ v w = 0) : cosineNp v w = 0 := by
  unfold cosineNp
  rw [h]
  push_cast
  rw [zero_div]
  rw [min_eq_right (by norm_num : (0 : ℝ) ≤ 1)]
  rw [max_eq_right (by norm_num : (-1 : ℝ) ≤ 0)]

/-- Claim C1 counterexample: identical OCR text (text similarity `1 ≥ 0.60`) with
orthogonal CLIP vectors (cosine `0 < 0.88`): one configured signal falls
outside its acceptable range, yet `_determine_change` reports the slide
unchanged (`is_new = false`), contradicting "changed if any configured
signal falls outside its acceptable range". -/
theorem embedding_change_policy_counterexample :
    (determineChange (some "hello world") (some [1, 0]) "hello world" [0, 1]).1
        = false ∧
    cosineNp [0, 1] [1, 0] < ((CLIP_THRESHOLD : ℚ) : ℝ) := by
  have hcos : cosineNp [0, 1] [1, 0] = 0 := by
    apply cosineNp_zero_dot
    norm_num [dotQ]
  constructor
  · rw [determineChange_some_fst_false]
    left
    rw [tokenSortRatio_self]
    norm_num [TEXT_THRESHOLD]
  · rw [hcos]
    norm_num [CLIP_THRESHOLD]

/-- Claim C1 amended: in the sequence-based variant (`evaluate_change`) the stated
policy holds — with non-empty previous text the frame is unchanged exactly
when BOTH signals clear their thresholds (sequence similarity ≥ ratio
threshold AND token delta ≤ token threshold).  In the embedding-based
variant (`_determine_change`, `compare_slides`) the combination is reversed:
the frame is unchanged exactly when AT LEAST ONE signal clears its threshold
(text similarity ≥ 0.60 OR clip cosine ≥ 0.88), i.e. it is reported changed
only when both signals fall below their thresholds. -/
theorem embedding_change_policy_amended (pt ct prev cur t1 t2 : String)
    (pc cc c1 c2 : List ℚ) (rt tt : ℚ) :
    ((determineChange (some pt) (some pc) ct cc).1 = false ↔
      TEXT_THRESHOLD ≤ tokenSortRatio ct pt / 100 ∨
        ((CLIP_THRESHOLD : ℚ) : ℝ) ≤ cosineNp cc pc) ∧
    ((compareSlidesMetrics t1 t2 c1 c2).2.2 = false ↔
      TEXT_THRESHOLD ≤ tokenSortRatio t1 t2 / 100 ∨
        ((CLIP_THRESHOLD : ℚ) : ℝ) ≤ cosineNp c1 c2) ∧
    (prev ≠ "" →
      ((evaluateChange prev cur rt tt).1 = false ↔
        rt ≤ seqRatio prev cur ∧ tokenDeltaRatio prev cur ≤ tt)) := by
  refine ⟨determineChange_some_fst_false pt pc ct cc, ?_, ?_⟩
  · rw [← Bool.not_eq_true, compareSlidesMetrics_newSlide]
    push_neg
    constructor
    · intro h
      by_cases ht : tokenSortRatio t1 t2 / 100 < TEXT_THRESHOLD
      · exact Or.inr (h ht)
      · exact Or.inl (le_of_not_lt ht)
    · intro h ht
      rcases h with h | h
      · exact absurd ht (not_lt.mpr h)
      · exact h
  · intro hne
    simp only [evaluateChange, if_neg hne, similarityScores]
    simp [not_lt]

/-- Witness for the amended C1 at concrete inputs. -/
theorem embedding_change_policy_amended_witness :
    ((determineChange (some "ab") (some [1]) "cd" [2]).1 = false ↔
      TEXT_THRESHOLD ≤ tokenSortRatio "cd" "ab" / 100 ∨
        ((CLIP_THRESHOLD : ℚ) : ℝ) ≤ cosineNp [2] [1]) ∧
    ((compareSlidesMetrics "ef" "gh" [3] [4]).2.2 = false ↔
      TEXT_THRESHOLD ≤ tokenSortRatio "ef" "gh" / 100 ∨
        ((CLIP_THRESHOLD : ℚ) : ℝ) ≤ cosineNp [3] [4]) ∧
    ((evaluateChange "x" "y" 0.85 0.2).1 = false ↔
      0.85 ≤ seqRatio "x" "y" ∧ tokenDeltaRatio "x" "y" ≤ 0.2) := by
  have h := embedding_change_policy_amended "ab" "cd" "x" "y" "ef" "gh"
    [1] [2] [3] [4] 0.85 0.2
  exact ⟨h.1, h.2.1, h.2.2 (by decide)⟩

/-- Claim C3 counterexample: the source has no short-OCR guard.  A current frame
whose OCR text has length 5 and a single word, compared against a non-null
previous state whose cached text differs, is reported `changed = true`
(both signals fall below their thresholds), not `changed = false` as the
claim states. -/
theorem short_ocr_guard_counterexample :
    (determineChange (some "") (some [1, 0]) "hello" [0, 1]).1 = true ∧
    "hello".length = 5 ∧ tokenize "hello" = ["hello"] := by
  have htsr : tokenSortRatio "hello" "" = 0 := by
    unfold tokenSortRatio
    rw [show sortedTokenJoin "hello" = "hello".toList from by decide,
        show sortedTokenJoin "" = [] from by decide]
    norm_num
    simp [lcs]
  have hcos : cosineNp [0, 1] [1, 0] = 0 := by
    apply cosineNp_zero_dot
    norm_num [dotQ]
  refine ⟨?_, by decide, by decide⟩
  rw [determineChange_some_fst]
  constructor
  · rw [htsr]
    norm_num [TEXT_THRESHOLD]
  · rw [hcos]
    norm_num [CLIP_THRESHOLD]

/-- Claim C3 amended: there is no short-OCR guard in the code.  With a non-null
previous state the decision for a frame whose OCR text has length 5 and one
word is governed purely by the two similarity thresholds: it is
`changed = true` exactly when text similarity `< 0.60` and clip cosine
`< 0.88`, never forced to `false` by the text's shortness. -/
theorem short_ocr_guard_amended (pt : String) (pc : List ℚ) (ct : String)
    (cc : List ℚ) (hlen : ct.length = 5) (hwords : (tokenize ct).length = 1) :
    (determineChange (some pt) (some pc) ct cc).1 = true ↔
      tokenSortRatio ct pt / 100 < TEXT_THRESHOLD ∧
        cosineNp cc pc < ((CLIP_THRESHOLD : ℚ) : ℝ) :=
  determineChange_some_fst pt pc ct cc

/-- Witness for the amended C3 on a concrete 5-character, one-word text. -/
theorem short_ocr_guard_amended_witness :
    (determineChange (some "prior") (some [1]) "hello" [2]).1 = true ↔
      tokenSortRatio "hello" "prior" / 100 < TEXT_THRESHOLD ∧
        cosineNp [2] [1] < ((CLIP_THRESHOLD : ℚ) : ℝ) :=
  short_ocr_guard_amended "prior" [1] "hello" [2] (by decide) (by decide)

/-- Claim C10 counterexample: comparing an embedding with an identical copy of
itself does NOT give cosine similarity exactly `1.0`: because of the
`1e-12` stabilizer in the denominator of `cosine_np`, the self-cosine of
the unit vector `[1]` is `1/(1 + 1e-12) ≠ 1`. -/
theorem change_detector_reflexivity_counterexample : cosineNp [1] [1] ≠ 1 := by
  have h := (cosineNp_self [1]).1
  rw [show sumSq [1] = 1 from by norm_num [sumSq]] at h
  rw [h]
  norm_num

/-- Claim C10 amended: comparing identical text with itself gives token-sort
similarity `1.0` (ratio `100`), token delta `0.0` and sequence similarity
`1.0`; comparing an embedding with itself gives cosine
`S/(S + 1e-12)` where `S` is its squared norm — strictly below `1.0`, not
equal to it.  The decision is still `changed = false`: in the
embedding-based variant for every non-null previous state, and in the
sequence-based variant for non-empty previous text. -/
theorem change_detector_reflexivity_amended (t : String) (v : List ℚ) :
    tokenSortRatio t t = 100 ∧
    tokenDeltaRatio t t = 0 ∧
    seqRatio t t = 1 ∧
    cosineNp v v = ((sumSq v : ℚ) : ℝ) / (((sumSq v : ℚ) : ℝ) + 1e-12) ∧
    cosineNp v v < 1 ∧
    (determineChange (some t) (some v) t v).1 = false ∧
    (t ≠ "" → evaluateChange t t 0.85 0.2 = (false, 1, 0)) := by
  refine ⟨tokenSortRatio_self t, tokenDeltaRatio_self t, seqRatio_self t,
    (cosineNp_self v).1, (cosineNp_self v).2, ?_, ?_⟩
  · rw [determineChange_some_fst_false]
    left
    rw [tokenSortRatio_self]
    norm_num [TEXT_THRESHOLD]
  · intro hne
    simp only [evaluateChange, if_neg hne, similarityScores, seqRatio_self,
      tokenDeltaRatio_self]
    norm_num

/-- Witness for the amended C10 at a concrete text and vector. -/
theorem change_detector_reflexivity_amended_witness :
    tokenSortRatio "ab" "ab" = 100 ∧
    tokenDeltaRatio "ab" "ab" = 0 ∧
    seqRatio "ab" "ab" = 1 ∧
    cosineNp [2] [2] = ((sumSq [2] : ℚ) : ℝ) / (((sumSq [2] : ℚ) : ℝ) + 1e-12) ∧
    cosineNp [2] [2] < 1 ∧
    (determineChange (some "ab") (some [2]) "ab" [2]).1 = false ∧
    evaluateChange "ab" "ab" 0.85 0.2 = (false, 1, 0) := by
  have h := change_detector_reflexivity_amended "ab" [2]
  exact ⟨h.1, h.2.1, h.2.2.1, h.2.2.2.1, h.2.2.2.2.1, h.2.2.2.2.2.1,
    h.2.2.2.2.2.2 (by decide)⟩

/-- Claim C6: if the change decision is "new slide" and the external summarizer
raises, `process_slide` fails with HTTP 502 carrying the summarizer error;
the persisted SlideState, the in-memory previous-feature cache and the
history log are all left untouched, so a retry with the same input again
sees `changed = true`. -/
theorem summarizer_failure_atomicity (st : ServerState) (sample : SlideSample)
    (e : GeminiError) (now : ℕ)
    (h : (determineChange st.prevText st.prevClip sample.ocrText
      sample.clipVector).1 = true) :
    processSlide st sample (.error e) now =
      (.error ⟨502, "Gemini summarization failed: " ++ e.msg⟩, st) ∧
    (determineChange (processSlide st sample (.error e) now).2.prevText
        (processSlide st sample (.error e) now).2.prevClip sample.ocrText
        sample.clipVector).1 = true := by
  have h1 : processSlide st sample (.error e) now =
      (.error ⟨502, "Gemini summarization failed: " ++ e.msg⟩, st) := by
    simp only [processSlide]
    rw [h]
    simp
  exact ⟨h1, by rw [h1]; exact h⟩

/-- Witness for C6: a first-observation state (null previous features)
with a failing summarizer. -/
theorem summarizer_failure_atomicity_witness :
    processSlide ⟨none, none, ⟨none, none, none, none⟩, []⟩ ⟨[[0]], [1], "x"⟩
        (.error ⟨"boom"⟩) 0 =
      (.error ⟨502, "Gemini summarization failed: boom"⟩,
        ⟨none, none, ⟨none, none, none, none⟩, []⟩) ∧
    (determineChange
        (processSlide ⟨none, none, ⟨none, none, none, none⟩, []⟩
          ⟨[[0]], [1], "x"⟩ (.error ⟨"boom"⟩) 0).2.prevText
        (processSlide ⟨none, none, ⟨none, none, none, none⟩, []⟩
          ⟨[[0]], [1], "x"⟩ (.error ⟨"boom"⟩) 0).2.prevClip "x" [1]).1 = true :=
  summarizer_failure_atomicity ⟨none, none, ⟨none, none, none, none⟩, []⟩
    ⟨[[0]], [1], "x"⟩ ⟨"boom"⟩ 0 rfl

theorem tokenUnion_comm (p c : String) : tokenUnion p c = tokenUnion c p := by
  unfold tokenUnion
  exact Finset.union_comm _ _

theorem tokenTotal_comm (p c : String) : tokenTotal p c = tokenTotal c p := by
  unfold tokenTotal
  rw [tokenUnion_comm]
  exact Finset.sum_congr rfl (fun t _ => max_comm _ _)

theorem tokenDiff_comm (p c : String) : tokenDiff p c = tokenDiff c p := by
  unfold tokenDiff
  rw [tokenUnion_comm]
  refine Finset.sum_congr rfl (fun t _ => ?_)
  rw [← neg_sub, Int.natAbs_neg]

/-- Claim C9: `token_delta_ratio` is the symmetric word-frequency difference
ratio of the spec — `(∑ |count_prev − count_curr|) / (∑ max)` over the
union of tokens — lies in `[0, 1]`, vanishes exactly when the two
lower-cased word multisets coincide (including both empty), equals `1` for
disjoint token sets with at least one non-empty, and is symmetric. -/
theorem token_delta_reference (p c : String) :
    tokenDeltaRatio p c = specWordFreqDelta p c ∧
    0 ≤ tokenDeltaRatio p c ∧ tokenDeltaRatio p c ≤ 1 ∧
    (tokenDeltaRatio p c = 0 ↔
      ((tokenize p : Multiset String) = (tokenize c : Multiset String))) ∧
    (Disjoint (tokenize p).toFinset (tokenize c).toFinset →
      (tokenize p ≠ [] ∨ tokenize c ≠ []) → tokenDeltaRatio p c = 1) ∧
    tokenDeltaRatio p c = tokenDeltaRatio c p := by
  refine ⟨?_, ?_, ?_, ?_, ?_, ?_⟩
  · unfold tokenDeltaRatio specWordFreqDelta
    split
    · rename_i h
      have h1 : tokenize p = [] := by rw [h.1]; rfl
      have h2 : tokenize c = [] := by rw [h.2]; rfl
      have htot : tokenTotal p c = 0 := (tokenTotal_eq_zero_iff p c).mpr ⟨h1, h2⟩
      have hdif : tokenDiff p c = 0 := by
        have := tokenDiff_le_tokenTotal p c
        omega
      rw [hdif, htot]
      simp
    · split
      · rename_i _ htot
        have hdif : tokenDiff p c = 0 := by
          have := tokenDiff_le_tokenTotal p c
          omega
        rw [hdif, htot]
        simp
      · rfl
  · unfold tokenDeltaRatio
    split
    · norm_num
    · split
      · norm_num
      · positivity
  · unfold tokenDeltaRatio
    split
    · norm_num
    · split
      · norm_num
      · rename_i _ htot
        rw [div_le_one (by exact_mod_cast Nat.pos_of_ne_zero htot)]
        exact_mod_cast tokenDiff_le_tokenTotal p c
  · unfold tokenDeltaRatio
    split
    · rename_i h
      have h1 : tokenize p = [] := by rw [h.1]; rfl
      have h2 : tokenize c = [] := by rw [h.2]; rfl
      constructor
      · intro _
        rw [h1, h2]
      · intro _
        rfl
    · split
      · rename_i _ htot
        obtain ⟨h1, h2⟩ := (tokenTotal_eq_zero_iff p c).mp htot
        constructor
        · intro _
          rw [h1, h2]
        · intro _
          rfl
      · rename_i _ htot
        rw [← tokenDiff_eq_zero_iff]
        constructor
        · intro hdz
          rw [div_eq_zero_iff] at hdz
          rcases hdz with hdz | hdz
          · exact_mod_cast hdz
          · exact absurd (by exact_mod_cast hdz) htot
        · intro hdz
          rw [hdz]
          simp
  · intro hdis hne
    have hdt : tokenDiff p c = tokenTotal p c := by
      unfold tokenDiff tokenTotal
      refine Finset.sum_congr rfl (fun t ht => ?_)
      have hcases : t ∈ (tokenize p).toFinset ∨ t ∈ (tokenize c).toFinset := by
        simpa [tokenUnion, Finset.mem_union] using ht
      rcases hcases with hm | hm
      · have hc0 : (tokenize c).count t = 0 := by
          apply List.count_eq_zero_of_not_mem
          intro hmem
          exact (Finset.disjoint_left.mp hdis hm) (List.mem_toFinset.mpr hmem)
        rw [hc0]
        omega
      · have hp0 : (tokenize p).count t = 0 := by
          apply List.count_eq_zero_of_not_mem
          intro hmem
          exact (Finset.disjoint_left.mp hdis (List.mem_toFinset.mpr hmem)) hm
        rw [hp0]
        omega
    have htot : tokenTotal p c ≠ 0 := by
      rw [Ne, tokenTotal_eq_zero_iff]
      rintro ⟨h1, h2⟩
      rcases hne with hne | hne <;> contradiction
    have hpc : ¬(p = "" ∧ c = "") := by
      rintro ⟨rfl, rfl⟩
      rcases hne with hne | hne <;> exact hne rfl
    unfold tokenDeltaRatio
    rw [if_neg hpc, if_neg htot, hdt, div_self (by exact_mod_cast htot)]
  · unfold tokenDeltaRatio
    rw [tokenTotal_comm, tokenDiff_comm]
    exact if_congr and_comm rfl rfl

/-- Witness for C9 on disjoint concrete texts. -/
theorem token_delta_reference_witness :
    tokenDeltaRatio "a b" "c" = specWordFreqDelta "a b" "c" ∧
    0 ≤ tokenDeltaRatio "a b" "c" ∧ tokenDeltaRatio "a b" "c" ≤ 1 ∧
    (tokenDeltaRatio "a b" "c" = 0 ↔
      ((tokenize "a b" : Multiset String) = (tokenize "c" : Multiset String))) ∧
    tokenDeltaRatio "a b" "c" = 1 ∧
    tokenDeltaRatio "a b" "c" = tokenDeltaRatio "c" "a b" := by
  have h := token_delta_reference "a b" "c"
  exact ⟨h.1, h.2.1, h.2.2.1, h.2.2.2.1,
    h.2.2.2.2.1 (by decide) (Or.inl (by decide)), h.2.2.2.2.2⟩
